import Mathlib

/-!
Verification of the ALBEF pretraining orchestration module
(lavis/models/albef_models/albef_pretrain.py).

The module is a training-time forward pass over external tensor components.
We shallow-embed the arithmetic over the rationals. The transcendental
functions used by softmax and log-softmax are passed as explicit function
parameters (exp, log); properties that depend on the real exponential
(positivity, the log-of-quotient law) appear as hypotheses at exactly the
points where the code relies on them. Random draws (Bernoulli masks,
randint words, multinomial sampling) are passed as explicit oracles, so a
theorem quantified over the oracle covers every outcome of the draws.
-/

namespace AlbefPretrain

/-- The tokenizer fields the model reads: pad, cls and mask token ids. -/
structure Tokenizer where
  pad_token_id : ℤ
  cls_token_id : ℤ
  mask_token_id : ℤ

/-- Outcomes of the random draws made inside mask(): the Bernoulli draw on
the probability matrix, the Bernoulli(0.8) draw for mask-token replacement,
the Bernoulli(0.5) draw for random-word replacement, and the
randint(vocab_size) draw of replacement words. The randint range guarantee
is the separate predicate RandWordsInRange. -/
structure MaskDraws (ι : Type) where
  bern : ι → Bool
  repl : ι → Bool
  rand : ι → Bool
  randomWords : ι → ℤ

/-- torch.randint(vocab_size, shape) only produces values in [0, vocab_size). -/
def RandWordsInRange (vocabSize : ℤ) {ι : Type} (draws : MaskDraws ι) : Prop :=
  ∀ p, 0 ≤ draws.randomWords p ∧ draws.randomWords p < vocabSize

/-- The values computed by mask(): the corrupted token ids, the labels (when
a targets tensor was supplied), and the local index sets of the source
(masked_indices after the pad/cls force-clear, indices_replaced,
indices_random). -/
structure MaskOut (ι : Type) where
  outIds : ι → ℤ
  outTargets : Option (ι → ℤ)
  maskedFinal : ι → Bool
  indicesReplaced : ι → Bool
  indicesRandom : ι → Bool

variable {ι : Type}

/-- AlbefPretrain.mask as a pure function of the draw outcomes.
Mirrors the source line by line:
masked_indices defaults to the Bernoulli draw, is force-cleared where
input_ids equals pad_token_id or cls_token_id; targets are set to -100
off-mask; indices_replaced = Bernoulli(0.8) and masked; ids at
indices_replaced become mask_token_id; indices_random =
Bernoulli(0.5) and masked and not replaced; ids at indices_random become
the randint draw; everything else is unchanged. -/
def applyMask (tok : Tokenizer) (draws : MaskDraws ι)
    (maskedIndices : Option (ι → Bool)) (input_ids : ι → ℤ)
    (targets : Option (ι → ℤ)) : MaskOut ι :=
  let mi0 := maskedIndices.getD draws.bern
  let mi1 := fun p => if input_ids p = tok.pad_token_id then false else mi0 p
  let mi := fun p => if input_ids p = tok.cls_token_id then false else mi1 p
  let outT := targets.map fun t => fun p => if mi p then t p else (-100 : ℤ)
  let indicesReplaced := fun p => draws.repl p && mi p
  let ids1 := fun p => if indicesReplaced p then tok.mask_token_id else input_ids p
  let indicesRandom := fun p => draws.rand p && mi p && !indicesReplaced p
  let ids2 := fun p => if indicesRandom p then draws.randomWords p else ids1 p
  { outIds := ids2
    outTargets := outT
    maskedFinal := mi
    indicesReplaced := indicesReplaced
    indicesRandom := indicesRandom }

/-- AlbefPretrain._rampup_factor: min(1, (epoch * N + iters) / (2 * N)). -/
def rampupFactor (epoch iters numItersPerEpoch : ℕ) : ℚ :=
  min 1 (((epoch * numItersPerEpoch + iters : ℕ) : ℚ) /
    ((2 * numItersPerEpoch : ℕ) : ℚ))

/-- self.temp.clamp_(0.001, 0.5): torch clamp, min(max(x, lo), hi). -/
def clampTemp (t : ℚ) : ℚ := min (max t (1 / 1000)) (1 / 2)

/-- A heap of named integer tensors. mask() mutates its argument tensors in
place, so for the frame claim we model the tensors as references into a
store and mask() as a store transformer. -/
def Store (ι : Type) := ℕ → ι → ℤ

/-- Write the tensor value v at reference r. -/
def setRef (σ : Store ι) (r : ℕ) (v : ι → ℤ) : Store ι :=
  fun n => if n = r then v else σ n

/-- AlbefPretrain.mask as a store transformer, performing the source's
in-place writes in source order (targets first, then the two input_ids
writes) and returning the references it was given, exactly as the source
returns the argument tensors themselves. -/
def maskProc (tok : Tokenizer) (draws : MaskDraws ι) (σ : Store ι)
    (inputRef : ℕ) (targetsRef : Option ℕ)
    (maskedIndices : Option (ι → Bool)) : Store ι × ℕ × Option ℕ :=
  let ids0 := σ inputRef
  let mi0 := maskedIndices.getD draws.bern
  let mi1 := fun p => if ids0 p = tok.pad_token_id then false else mi0 p
  let mi := fun p => if ids0 p = tok.cls_token_id then false else mi1 p
  let σ1 := match targetsRef with
    | some tr => setRef σ tr (fun p => if mi p then σ tr p else -100)
    | none => σ
  let indicesReplaced := fun p => draws.repl p && mi p
  let σ2 := setRef σ1 inputRef
    (fun p => if indicesReplaced p then tok.mask_token_id else σ1 inputRef p)
  let indicesRandom := fun p => draws.rand p && mi p && !indicesReplaced p
  let σ3 := setRef σ2 inputRef
    (fun p => if indicesRandom p then draws.randomWords p else σ2 inputRef p)
  (σ3, inputRef, targetsRef)

/-- A concrete tokenizer for witnesses: pad 0, cls 101, mask 103. -/
def tok0 : Tokenizer :=
  { pad_token_id := 0, cls_token_id := 101, mask_token_id := 103 }

/-- Concrete draw outcomes for witnesses on two positions. -/
def draws0 : MaskDraws (Fin 2) :=
  { bern := fun _ => true
    repl := fun _ => false
    rand := fun _ => true
    randomWords := fun _ => 5 }

/-- A concrete token-id tensor: position 0 is the cls token, position 1 an
ordinary word whose id coincides with the randint draw of draws0. -/
def ids0 : Fin 2 → ℤ := fun p => if p = 0 then 101 else 5

/-- A concrete store for the frame witness: the ids tensor at reference 0
and its clone at reference 1. -/
def store0 : Store (Fin 2) := fun r p => if r ≤ 1 then ids0 p else 0

/-- Dot product of two feature vectors. -/
def dotQ {d : ℕ} (u v : Fin d → ℚ) : ℚ := ∑ k, u k * v k

/-- torch.cat([feat_m.t(), queue], dim=1), viewed column by column: the
first bs columns are the rows of the momentum features, the remaining qs
columns come from the queue. -/
def featAllCols {bs qs d : ℕ} (featM : Fin bs → Fin d → ℚ)
    (queue : Fin d → Fin qs → ℚ) : Fin (bs + qs) → Fin d → ℚ :=
  Fin.append featM fun j k => queue k j

/-- F.softmax along a row, with the exponential passed explicitly. -/
def softmaxRow {n : ℕ} (exp : ℚ → ℚ) (x : Fin n → ℚ) : Fin n → ℚ :=
  fun j => exp (x j) / ∑ k, exp (x k)

/-- F.log_softmax along a row: x j minus the log of the partition sum. -/
def logSoftmaxRow {n : ℕ} (exp log : ℚ → ℚ) (x : Fin n → ℚ) : Fin n → ℚ :=
  fun j => x j - log (∑ k, exp (x k))

/-- The per-example negative log likelihood of the class y under logits,
log-sum-exp minus the logit of y; F.cross_entropy is its mean. -/
def nllLoss {n : ℕ} (exp log : ℚ → ℚ) (logits : Fin n → ℚ) (y : Fin n) : ℚ :=
  log (∑ j, exp (logits j)) - logits y

/-- Every value AlbefPretrain.forward computes that the claims speak about:
the ramped distillation weight, the clamped temperature, the four
similarity matrices, the soft targets, the contrastive losses, the
hard-negative sampling weights and sampled indices, the matching-head
logits and labels, and the loss terms. -/
structure ForwardTrace (bs qs : ℕ) where
  alpha : ℚ
  temp : ℚ
  simI2tM : Fin bs → Fin (bs + qs) → ℚ
  simT2iM : Fin bs → Fin (bs + qs) → ℚ
  simTargets : Fin bs → Fin (bs + qs) → ℚ
  simI2tTargets : Fin bs → Fin (bs + qs) → ℚ
  simT2iTargets : Fin bs → Fin (bs + qs) → ℚ
  simI2t : Fin bs → Fin (bs + qs) → ℚ
  simT2i : Fin bs → Fin (bs + qs) → ℚ
  lossI2t : ℚ
  lossT2i : ℚ
  lossIta : ℚ
  weightsI2t : Fin bs → Fin bs → ℚ
  weightsT2i : Fin bs → Fin bs → ℚ
  negIdxImg : Fin bs → Fin bs
  negIdxTxt : Fin bs → Fin bs
  vlOutput : List (Fin 2 → ℚ)
  itmLabels : List (Fin 2)
  lossItm : ℚ
  lossMlm : ℚ
  loss : ℚ

/-- AlbefPretrain.forward, shallow-embedded in source order. The external
encoders are opaque capability providers, so their outputs enter as
parameters: the four projected and normalized feature matrices, the two
queues, the token-level embeddings (abstract types TE, IE), the fusion
encoder composed with the cls-token selection (fuseCls), and the matching
head over the fused representation (itmHead). torch.multinomial enters as
the oracle sampler, exp and log as explicit functions, and the
masked-language-modeling loss produced by the external text encoder as the
parameter lossMlm. -/
def forward {bs qs d : ℕ} {TE IE CLS : Type} (exp log : ℚ → ℚ)
    (alpha0 temp0 : ℚ) (epoch iters numItersPerEpoch : ℕ)
    (imageFeat textFeat imageFeatM textFeatM : Fin bs → Fin d → ℚ)
    (imageQueue textQueue : Fin d → Fin qs → ℚ)
    (sampler : (Fin bs → ℚ) → Fin bs)
    (textEmbeds : Fin bs → TE) (imageEmbeds : Fin bs → IE)
    (fuseCls : TE → IE → CLS) (itmHead : CLS → Fin 2 → ℚ)
    (lossMlm : ℚ) : ForwardTrace bs qs :=
  let alpha := alpha0 * rampupFactor epoch iters numItersPerEpoch
  let temp := clampTemp temp0
  let textFeatAll := featAllCols textFeatM textQueue
  let imageFeatAll := featAllCols imageFeatM imageQueue
  let simI2tM := fun i j => dotQ (imageFeatM i) (textFeatAll j) / temp
  let simT2iM := fun i j => dotQ (textFeatM i) (imageFeatAll j) / temp
  let simTargets : Fin bs → Fin (bs + qs) → ℚ :=
    fun i j => if (j : ℕ) = (i : ℕ) then 1 else 0
  let simI2tTargets := fun i j =>
    alpha * softmaxRow exp (simI2tM i) j + (1 - alpha) * simTargets i j
  let simT2iTargets := fun i j =>
    alpha * softmaxRow exp (simT2iM i) j + (1 - alpha) * simTargets i j
  let simI2t := fun i j => dotQ (imageFeat i) (textFeatAll j) / temp
  let simT2i := fun i j => dotQ (textFeat i) (imageFeatAll j) / temp
  let lossI2t :=
    -((∑ i, ∑ j, logSoftmaxRow exp log (simI2t i) j * simI2tTargets i j) / bs)
  let lossT2i :=
    -((∑ i, ∑ j, logSoftmaxRow exp log (simT2i i) j * simT2iTargets i j) / bs)
  let lossIta := (lossI2t + lossT2i) / 2
  let weightsI2t : Fin bs → Fin bs → ℚ := fun b j => if (j : ℕ) = (b : ℕ) then 0
    else softmaxRow exp (fun k => simI2t b (Fin.castAdd qs k)) j
  let weightsT2i : Fin bs → Fin bs → ℚ := fun b j => if (j : ℕ) = (b : ℕ) then 0
    else softmaxRow exp (fun k => simT2i b (Fin.castAdd qs k)) j
  let negIdxImg := fun b => sampler (weightsT2i b)
  let negIdxTxt := fun b => sampler (weightsI2t b)
  let posRows := List.ofFn fun b => itmHead (fuseCls (textEmbeds b) (imageEmbeds b))
  let negRows1 := List.ofFn fun b =>
    itmHead (fuseCls (textEmbeds b) (imageEmbeds (negIdxImg b)))
  let negRows2 := List.ofFn fun b =>
    itmHead (fuseCls (textEmbeds (negIdxTxt b)) (imageEmbeds b))
  let vlOutput := posRows ++ (negRows1 ++ negRows2)
  let itmLabels : List (Fin 2) :=
    List.replicate bs 1 ++ List.replicate (2 * bs) 0
  let lossItm := (List.zipWith (nllLoss exp log) vlOutput itmLabels).sum /
    ((3 * bs : ℕ) : ℚ)
  let loss := lossIta + lossItm + lossMlm
  { alpha := alpha
    temp := temp
    simI2tM := simI2tM
    simT2iM := simT2iM
    simTargets := simTargets
    simI2tTargets := simI2tTargets
    simT2iTargets := simT2iTargets
    simI2t := simI2t
    simT2i := simT2i
    lossI2t := lossI2t
    lossT2i := lossT2i
    lossIta := lossIta
    weightsI2t := weightsI2t
    weightsT2i := weightsT2i
    negIdxImg := negIdxImg
    negIdxTxt := negIdxTxt
    vlOutput := vlOutput
    itmLabels := itmLabels
    lossItm := lossItm
    lossMlm := lossMlm
    loss := loss }

/-- Modelled from the spec words for the refinement of claim C9: the soft
targets as a convex combination of the teacher distribution and the
diagonal identity matching matrix with weight alpha. -/
def specSoftTargets {bs qs : ℕ} (alpha : ℚ)
    (teacher : Fin bs → Fin (bs + qs) → ℚ) : Fin bs → Fin (bs + qs) → ℚ :=
  fun i j => alpha * teacher i j + (1 - alpha) * (if (j : ℕ) = (i : ℕ) then 1 else 0)

/-- Modelled from the spec words for the refinement of claim C9: the
cross-entropy of a probability row p against a soft target row q. -/
def specCrossEntropy {n : ℕ} (log : ℚ → ℚ) (p q : Fin n → ℚ) : ℚ :=
  -(∑ j, q j * log (p j))

/-- A concrete stand-in for the exponential in witnesses. -/
def exp0 : ℚ → ℚ := fun _ => 1

/-- A concrete stand-in for the logarithm in witnesses. -/
def log0 : ℚ → ℚ := fun _ => 0

/-- A concrete multinomial oracle on two categories that picks a
positively weighted index whenever one exists. -/
def sampler0 : (Fin 2 → ℚ) → Fin 2 := fun w => if 0 < w 0 then 0 else 1

/-- A concrete multinomial oracle on one category. -/
def sampler1 : (Fin 1 → ℚ) → Fin 1 := fun _ => 0

/-- Zero feature matrices and queues for witnesses. -/
def zfeat1 : Fin 1 → Fin 1 → ℚ := fun _ _ => 0

def zfeat2 : Fin 2 → Fin 1 → ℚ := fun _ _ => 0

def zqueue1 : Fin 1 → Fin 0 → ℚ := fun _ j => j.elim0

def uE1 : Fin 1 → Unit := fun _ => ()

def uE2 : Fin 2 → Unit := fun _ => ()

def fuse0 : Unit → Unit → Unit := fun _ _ => ()

def zhead : Unit → Fin 2 → ℚ := fun _ _ => 0

/-- A concrete forward trace at batch size 1 for witnesses. -/
def fwdW1 : ForwardTrace 1 0 :=
  forward exp0 log0 (2 / 5) (7 / 100) 0 0 1 zfeat1 zfeat1 zfeat1 zfeat1
    zqueue1 zqueue1 sampler1 uE1 uE1 fuse0 zhead 0

/-- A concrete forward trace at batch size 2 for witnesses. -/
def fwdW2 : ForwardTrace 2 0 :=
  forward exp0 log0 (2 / 5) (7 / 100) 0 0 1 zfeat2 zfeat2 zfeat2 zfeat2
    zqueue1 zqueue1 sampler0 uE2 uE2 fuse0 zhead 0

end AlbefPretrain

namespace AlbefPretrain

/-- Claim C1: the rampup factor equals min(1, (e*N + i)/(2*N)) for N > 0;
it is 0 at (epoch 0, iters 0), it is 1 at (epoch 0, iters 2*N), and it
never exceeds 1. -/
theorem rampupFactor_spec (e i N : ℕ) (hN : 0 < N) :
    rampupFactor e i N = min 1 (((e * N + i : ℚ)) / (2 * N)) ∧
    rampupFactor 0 0 N = 0 ∧
    rampupFactor 0 (2 * N) N = 1 ∧
    rampupFactor e i N ≤ 1 := by
  have hN' : (N : ℚ) ≠ 0 := Nat.cast_ne_zero.mpr hN.ne'
  refine ⟨by unfold rampupFactor; push_cast; ring_nf, ?_, ?_, min_le_left _ _⟩
  · unfold rampupFactor
    norm_num
  · unfold rampupFactor
    push_cast
    rw [zero_mul, zero_add, div_self (by positivity)]
    norm_num

/-- Witness for C1 at N = 3, e = 1, i = 2. -/
theorem rampupFactor_spec_witness :
    0 < 3 ∧
    (rampupFactor 1 2 3 = min 1 (((1 * 3 + 2 : ℚ)) / (2 * 3)) ∧
      rampupFactor 0 0 3 = 0 ∧
      rampupFactor 0 (2 * 3) 3 = 1 ∧
      rampupFactor 1 2 3 ≤ 1) :=
  ⟨by norm_num, rampupFactor_spec 1 2 3 (by norm_num)⟩

variable {ι : Type}

theorem applyMask_maskedFinal (tok : Tokenizer) (draws : MaskDraws ι)
    (mio : Option (ι → Bool)) (ids : ι → ℤ) (tgt : Option (ι → ℤ)) (p : ι) :
    (applyMask tok draws mio ids tgt).maskedFinal p =
      if ids p = tok.cls_token_id then false
      else if ids p = tok.pad_token_id then false
      else mio.getD draws.bern p := rfl

theorem applyMask_indicesReplaced (tok : Tokenizer) (draws : MaskDraws ι)
    (mio : Option (ι → Bool)) (ids : ι → ℤ) (tgt : Option (ι → ℤ)) (p : ι) :
    (applyMask tok draws mio ids tgt).indicesReplaced p =
      (draws.repl p && (applyMask tok draws mio ids tgt).maskedFinal p) := rfl

theorem applyMask_indicesRandom (tok : Tokenizer) (draws : MaskDraws ι)
    (mio : Option (ι → Bool)) (ids : ι → ℤ) (tgt : Option (ι → ℤ)) (p : ι) :
    (applyMask tok draws mio ids tgt).indicesRandom p =
      (draws.rand p && (applyMask tok draws mio ids tgt).maskedFinal p &&
        !(applyMask tok draws mio ids tgt).indicesReplaced p) := rfl

theorem applyMask_outIds (tok : Tokenizer) (draws : MaskDraws ι)
    (mio : Option (ι → Bool)) (ids : ι → ℤ) (tgt : Option (ι → ℤ)) (p : ι) :
    (applyMask tok draws mio ids tgt).outIds p =
      if (applyMask tok draws mio ids tgt).indicesRandom p then draws.randomWords p
      else if (applyMask tok draws mio ids tgt).indicesReplaced p then tok.mask_token_id
      else ids p := rfl

theorem applyMask_outTargets (tok : Tokenizer) (draws : MaskDraws ι)
    (mio : Option (ι → Bool)) (ids : ι → ℤ) (t : ι → ℤ) :
    (applyMask tok draws mio ids (some t)).outTargets =
      some fun p =>
        if (applyMask tok draws mio ids (some t)).maskedFinal p then t p
        else -100 := rfl

/-- Claim C3: a position holding the pad token id or the cls token id is
never masked, for every outcome of the draws and whether the mask positions
come from the Bernoulli draw or are supplied externally: the final mask is
force-cleared there, the token id is left unchanged, and when a targets
tensor is supplied the label there is the ignore sentinel -100. -/
theorem mask_never_masks_pad_or_cls (tok : Tokenizer) (draws : MaskDraws ι)
    (mio : Option (ι → Bool)) (ids : ι → ℤ) (tgt : Option (ι → ℤ)) (p : ι)
    (h : ids p = tok.pad_token_id ∨ ids p = tok.cls_token_id) :
    (applyMask tok draws mio ids tgt).maskedFinal p = false ∧
    (applyMask tok draws mio ids tgt).outIds p = ids p ∧
    ∀ t, tgt = some t → ∃ t2, (applyMask tok draws mio ids tgt).outTargets = some t2 ∧
      t2 p = -100 := by
  have hmi : (applyMask tok draws mio ids tgt).maskedFinal p = false := by
    rw [applyMask_maskedFinal]
    rcases h with h | h <;> simp [h]
  have hrep : (applyMask tok draws mio ids tgt).indicesReplaced p = false := by
    rw [applyMask_indicesReplaced, hmi, Bool.and_false]
  have hrand : (applyMask tok draws mio ids tgt).indicesRandom p = false := by
    rw [applyMask_indicesRandom, hmi]
    simp
  refine ⟨hmi, ?_, ?_⟩
  · rw [applyMask_outIds, hrep, hrand]
    simp
  · rintro t rfl
    exact ⟨_, applyMask_outTargets tok draws mio ids t, by rw [hmi]; simp⟩

/-- Witness for C3 at the cls position of a concrete input. -/
theorem mask_never_masks_pad_or_cls_witness :
    (ids0 0 = tok0.pad_token_id ∨ ids0 0 = tok0.cls_token_id) ∧
    ((applyMask tok0 draws0 none ids0 (some ids0)).maskedFinal 0 = false ∧
      (applyMask tok0 draws0 none ids0 (some ids0)).outIds 0 = ids0 0 ∧
      ∀ t, some ids0 = some t →
        ∃ t2, (applyMask tok0 draws0 none ids0 (some ids0)).outTargets = some t2 ∧
          t2 0 = -100) :=
  ⟨Or.inr (by decide),
    mask_never_masks_pad_or_cls tok0 draws0 none ids0 (some ids0) 0
      (Or.inr (by decide))⟩

/-- Claim C4: the mask-token replacement positions and the random-word
replacement positions are disjoint, and each is contained in the set of
masked positions, for every input and every outcome of the draws. -/
theorem mask_replaced_random_disjoint (tok : Tokenizer) (draws : MaskDraws ι)
    (mio : Option (ι → Bool)) (ids : ι → ℤ) (tgt : Option (ι → ℤ)) (p : ι) :
    ((applyMask tok draws mio ids tgt).indicesReplaced p &&
      (applyMask tok draws mio ids tgt).indicesRandom p) = false ∧
    ((applyMask tok draws mio ids tgt).indicesReplaced p &&
      !(applyMask tok draws mio ids tgt).maskedFinal p) = false ∧
    ((applyMask tok draws mio ids tgt).indicesRandom p &&
      !(applyMask tok draws mio ids tgt).maskedFinal p) = false := by
  rw [applyMask_indicesRandom, applyMask_indicesReplaced]
  cases draws.repl p <;> cases draws.rand p <;>
    cases (applyMask tok draws mio ids tgt).maskedFinal p <;> exact ⟨rfl, rfl, rfl⟩

/-- Claim C5: when a targets tensor equal to the input ids is supplied (as
forward supplies a clone of the input ids), the returned labels are -100
exactly where the final mask is false and the original token id exactly
where it is true, and the labels are returned paired with the corrupted
ids; with no targets tensor, no labels are returned. -/
theorem mask_targets_labels (tok : Tokenizer) (draws : MaskDraws ι)
    (mio : Option (ι → Bool)) (ids : ι → ℤ) (t : ι → ℤ)
    (ht : ∀ p, t p = ids p) :
    ((applyMask tok draws mio ids (some t)).outTargets =
      some fun p =>
        if (applyMask tok draws mio ids (some t)).maskedFinal p then ids p
        else -100) ∧
    (applyMask tok draws mio ids none).outTargets = none := by
  refine ⟨?_, rfl⟩
  rw [applyMask_outTargets]
  refine congrArg some (funext fun p => ?_)
  rw [ht p]

/-- Witness for C5 on a concrete input with targets equal to the ids. -/
theorem mask_targets_labels_witness :
    ((applyMask tok0 draws0 none ids0 (some ids0)).outTargets =
      some fun p =>
        if (applyMask tok0 draws0 none ids0 (some ids0)).maskedFinal p then ids0 p
        else -100) ∧
    (applyMask tok0 draws0 none ids0 none).outTargets = none :=
  mask_targets_labels tok0 draws0 none ids0 ids0 (fun _ => rfl)

/-- Claim C6: at a random-word replacement position the output id is
exactly the randint draw, which ranges over all of [0, vocab_size) with
nothing excluded; in particular the replacement may coincide with the
original token id or with the mask token id. -/
theorem mask_random_word_full_range (tok : Tokenizer) (draws : MaskDraws ι)
    (mio : Option (ι → Bool)) (ids : ι → ℤ) (tgt : Option (ι → ℤ))
    (vocabSize : ℤ) (p : ι)
    (hrange : RandWordsInRange vocabSize draws)
    (h : (applyMask tok draws mio ids tgt).indicesRandom p = true) :
    (applyMask tok draws mio ids tgt).outIds p = draws.randomWords p ∧
    0 ≤ (applyMask tok draws mio ids tgt).outIds p ∧
    (applyMask tok draws mio ids tgt).outIds p < vocabSize ∧
    (draws.randomWords p = ids p →
      (applyMask tok draws mio ids tgt).outIds p = ids p) ∧
    (draws.randomWords p = tok.mask_token_id →
      (applyMask tok draws mio ids tgt).outIds p = tok.mask_token_id) := by
  have hout : (applyMask tok draws mio ids tgt).outIds p = draws.randomWords p := by
    rw [applyMask_outIds, h, if_pos rfl]
  refine ⟨hout, ?_, ?_, ?_, ?_⟩
  · rw [hout]; exact (hrange p).1
  · rw [hout]; exact (hrange p).2
  · intro hco; rw [hout, hco]
  · intro hco; rw [hout, hco]

/-- Witness for C6: a concrete random-replaced position whose drawn word
coincides with the original token id. -/
theorem mask_random_word_full_range_witness :
    RandWordsInRange 30522 draws0 ∧
    ((applyMask tok0 draws0 none ids0 (some ids0)).outIds 1 = draws0.randomWords 1 ∧
      0 ≤ (applyMask tok0 draws0 none ids0 (some ids0)).outIds 1 ∧
      (applyMask tok0 draws0 none ids0 (some ids0)).outIds 1 < 30522 ∧
      (draws0.randomWords 1 = ids0 1 →
        (applyMask tok0 draws0 none ids0 (some ids0)).outIds 1 = ids0 1) ∧
      (draws0.randomWords 1 = tok0.mask_token_id →
        (applyMask tok0 draws0 none ids0 (some ids0)).outIds 1 = tok0.mask_token_id)) :=
  ⟨by intro p; refine ⟨?_, ?_⟩ <;> norm_num [draws0],
    mask_random_word_full_range tok0 draws0 none ids0 (some ids0) 30522 1
      (by intro p; refine ⟨?_, ?_⟩ <;> norm_num [draws0]) (by decide)⟩

/-- Claim C10: mask() mutates its argument tensors in place and returns the
very references it was given: the store transformer returns the input ids
reference and the targets reference unchanged, the contents at those
references become the corrupted ids and the labels of the pure mask
function, and every other reference is untouched. -/
theorem mask_mutates_in_place (tok : Tokenizer) (draws : MaskDraws ι)
    (σ : Store ι) (inputRef tr : ℕ) (mio : Option (ι → Bool))
    (hne : tr ≠ inputRef) :
    (maskProc tok draws σ inputRef (some tr) mio).2.1 = inputRef ∧
    (maskProc tok draws σ inputRef (some tr) mio).2.2 = some tr ∧
    (maskProc tok draws σ inputRef (some tr) mio).1 inputRef =
      (applyMask tok draws mio (σ inputRef) (some (σ tr))).outIds ∧
    some ((maskProc tok draws σ inputRef (some tr) mio).1 tr) =
      (applyMask tok draws mio (σ inputRef) (some (σ tr))).outTargets ∧
    ∀ r, r ≠ inputRef → r ≠ tr →
      (maskProc tok draws σ inputRef (some tr) mio).1 r = σ r := by
  refine ⟨rfl, rfl, ?_, ?_, ?_⟩
  · funext p
    simp [maskProc, applyMask, setRef, Ne.symm hne]
  · simp [maskProc, applyMask, setRef, hne]
  · intro r hr1 hr2
    simp [maskProc, setRef, hr1, hr2]

section ForwardClaims

variable {bs qs d : ℕ} {TE IE CLS : Type} (exp log : ℚ → ℚ) (a0 t0 : ℚ)
  (ep it ne : ℕ) (fI fT fIm fTm : Fin bs → Fin d → ℚ)
  (qI qT : Fin d → Fin qs → ℚ) (sp : (Fin bs → ℚ) → Fin bs)
  (tE : Fin bs → TE) (iE : Fin bs → IE) (fc : TE → IE → CLS)
  (ih : CLS → Fin 2 → ℚ) (lm : ℚ)

/-- Claim C2: forward clamps the learned temperature into [0.001, 0.5]
before any similarity computation, every one of the four similarity
matrices (teacher and student) divides by that already-clamped value,
and the stored temperature after the forward call lies in [0.001, 0.5]
regardless of its pre-clamp value. -/
theorem forward_temp_clamped :
    (1 / 1000 ≤ (forward exp log a0 t0 ep it ne fI fT fIm fTm qI qT sp tE iE fc ih lm).temp ∧
      (forward exp log a0 t0 ep it ne fI fT fIm fTm qI qT sp tE iE fc ih lm).temp ≤ 1 / 2) ∧
    (forward exp log a0 t0 ep it ne fI fT fIm fTm qI qT sp tE iE fc ih lm).temp =
      clampTemp t0 ∧
    (∀ i j, (forward exp log a0 t0 ep it ne fI fT fIm fTm qI qT sp tE iE fc ih lm).simI2tM i j =
      dotQ (fIm i) (featAllCols fTm qT j) /
        (forward exp log a0 t0 ep it ne fI fT fIm fTm qI qT sp tE iE fc ih lm).temp) ∧
    (∀ i j, (forward exp log a0 t0 ep it ne fI fT fIm fTm qI qT sp tE iE fc ih lm).simT2iM i j =
      dotQ (fTm i) (featAllCols fIm qI j) /
        (forward exp log a0 t0 ep it ne fI fT fIm fTm qI qT sp tE iE fc ih lm).temp) ∧
    (∀ i j, (forward exp log a0 t0 ep it ne fI fT fIm fTm qI qT sp tE iE fc ih lm).simI2t i j =
      dotQ (fI i) (featAllCols fTm qT j) /
        (forward exp log a0 t0 ep it ne fI fT fIm fTm qI qT sp tE iE fc ih lm).temp) ∧
    (∀ i j, (forward exp log a0 t0 ep it ne fI fT fIm fTm qI qT sp tE iE fc ih lm).simT2i i j =
      dotQ (fT i) (featAllCols fIm qI j) /
        (forward exp log a0 t0 ep it ne fI fT fIm fTm qI qT sp tE iE fc ih lm).temp) := by
  refine ⟨⟨?_, ?_⟩, rfl, fun i j => rfl, fun i j => rfl, fun i j => rfl,
    fun i j => rfl⟩
  · show (1 : ℚ) / 1000 ≤ min (max t0 (1 / 1000)) (1 / 2)
    exact le_min (le_max_right _ _) (by norm_num)
  · show min (max t0 (1 / 1000)) (1 / 2) ≤ 1 / 2
    exact min_le_right _ _

theorem sampler_avoids_zeroed_diagonal
    (hexp : ∀ x, 0 < exp x)
    (hsp : ∀ w : Fin bs → ℚ, (∃ j, 0 < w j) → 0 < w (sp w))
    (hbs : 2 ≤ bs) (x : Fin bs → ℚ) (b : Fin bs) :
    sp (fun j => if (j : ℕ) = (b : ℕ) then 0 else softmaxRow exp x j) ≠ b := by
  have hnt : Nontrivial (Fin bs) := Fin.nontrivial_iff_two_le.mpr hbs
  obtain ⟨j, hj⟩ := exists_ne b
  have hjv : (j : ℕ) ≠ (b : ℕ) := fun hc => hj (Fin.val_injective hc)
  have hsum : 0 < ∑ k, exp (x k) :=
    Finset.sum_pos (fun k _ => hexp _) Finset.univ_nonempty
  have hwj : 0 < (fun j : Fin bs => if (j : ℕ) = (b : ℕ) then 0
      else softmaxRow exp x j) j := by
    simp only [if_neg hjv, softmaxRow]
    exact div_pos (hexp _) hsum
  have hpos := hsp (fun j : Fin bs =>
    if (j : ℕ) = (b : ℕ) then 0 else softmaxRow exp x j) ⟨j, hwj⟩
  intro hEq
  rw [hEq] at hpos
  simp at hpos

/-- Claim C7: the hard-negative sampling weights are the softmax of only
the in-batch block of the student similarity matrices with the diagonal
zeroed; for batch size at least 2, the sampled negative index is never the
row index itself; for batch size 1 every weight in the row is zero, and
forward has no guard for this case. -/
theorem forward_hard_negative_mining
    (hexp : ∀ x, 0 < exp x)
    (hsp : ∀ w : Fin bs → ℚ, (∃ j, 0 < w j) → 0 < w (sp w)) :
    (∀ b j, (forward exp log a0 t0 ep it ne fI fT fIm fTm qI qT sp tE iE fc ih lm).weightsT2i b j =
      if (j : ℕ) = (b : ℕ) then 0
      else softmaxRow exp (fun k =>
        (forward exp log a0 t0 ep it ne fI fT fIm fTm qI qT sp tE iE fc ih lm).simT2i b
          (Fin.castAdd qs k)) j) ∧
    (∀ b j, (forward exp log a0 t0 ep it ne fI fT fIm fTm qI qT sp tE iE fc ih lm).weightsI2t b j =
      if (j : ℕ) = (b : ℕ) then 0
      else softmaxRow exp (fun k =>
        (forward exp log a0 t0 ep it ne fI fT fIm fTm qI qT sp tE iE fc ih lm).simI2t b
          (Fin.castAdd qs k)) j) ∧
    (2 ≤ bs → ∀ b,
      (forward exp log a0 t0 ep it ne fI fT fIm fTm qI qT sp tE iE fc ih lm).negIdxImg b ≠ b ∧
      (forward exp log a0 t0 ep it ne fI fT fIm fTm qI qT sp tE iE fc ih lm).negIdxTxt b ≠ b) ∧
    (bs = 1 → ∀ b j,
      (forward exp log a0 t0 ep it ne fI fT fIm fTm qI qT sp tE iE fc ih lm).weightsT2i b j = 0 ∧
      (forward exp log a0 t0 ep it ne fI fT fIm fTm qI qT sp tE iE fc ih lm).weightsI2t b j = 0) := by
  refine ⟨fun b j => rfl, fun b j => rfl, ?_, ?_⟩
  · intro hbs b
    exact ⟨sampler_avoids_zeroed_diagonal exp sp hexp hsp hbs _ b,
      sampler_avoids_zeroed_diagonal exp sp hexp hsp hbs _ b⟩
  · intro h1 b j
    have hv : (j : ℕ) = (b : ℕ) := by
      have hjl := j.isLt
      have hbl := b.isLt
      omega
    constructor
    · show (if (j : ℕ) = (b : ℕ) then (0 : ℚ) else _) = 0
      rw [if_pos hv]
    · show (if (j : ℕ) = (b : ℕ) then (0 : ℚ) else _) = 0
      rw [if_pos hv]

theorem zipWith_replicate_right {α β γ : Type} (f : α → β → γ) (c : β) :
    ∀ xs : List α,
      List.zipWith f xs (List.replicate xs.length c) = xs.map fun x => f x c
  | [] => rfl
  | x :: xs => by
    simp only [List.length_cons, List.replicate_succ, List.zipWith_cons_cons,
      List.map_cons]
    rw [zipWith_replicate_right f c xs]

/-- Claim C8: the ITM loss is a standard cross-entropy over exactly
3 * batch_size fused examples: the batch_size positive pairs first, then
batch_size image-anchored negatives, then batch_size text-anchored
negatives, with positives labeled 1 and both negative groups labeled 0. -/
theorem forward_itm_three_groups :
    (forward exp log a0 t0 ep it ne fI fT fIm fTm qI qT sp tE iE fc ih lm).vlOutput.length = 3 * bs ∧
    (forward exp log a0 t0 ep it ne fI fT fIm fTm qI qT sp tE iE fc ih lm).itmLabels =
      List.replicate bs 1 ++ List.replicate (2 * bs) 0 ∧
    (forward exp log a0 t0 ep it ne fI fT fIm fTm qI qT sp tE iE fc ih lm).lossItm =
      ((∑ b, nllLoss exp log (ih (fc (tE b) (iE b))) 1) +
        ((∑ b, nllLoss exp log (ih (fc (tE b) (iE
          ((forward exp log a0 t0 ep it ne fI fT fIm fTm qI qT sp tE iE fc ih lm).negIdxImg b)))) 0) +
         (∑ b, nllLoss exp log (ih (fc (tE
          ((forward exp log a0 t0 ep it ne fI fT fIm fTm qI qT sp tE iE fc ih lm).negIdxTxt b)) (iE b))) 0))) /
      ((3 * bs : ℕ) : ℚ) := by
  refine ⟨?_, rfl, ?_⟩
  · show (List.ofFn _ ++ (List.ofFn _ ++ List.ofFn _)).length = 3 * bs
    simp [List.length_ofFn]
    omega
  · show (List.zipWith (nllLoss exp log)
      (List.ofFn _ ++ (List.ofFn _ ++ List.ofFn _))
      (List.replicate bs 1 ++ List.replicate (2 * bs) 0)).sum /
        ((3 * bs : ℕ) : ℚ) = _
    rw [two_mul, List.replicate_add]
    rw [List.zipWith_append _ _ _ _ _ (by simp),
      List.zipWith_append _ _ _ _ _ (by simp)]
    have hz : ∀ (g : Fin bs → Fin 2 → ℚ) (c : Fin 2),
        List.zipWith (nllLoss exp log) (List.ofFn g) (List.replicate bs c) =
          (List.ofFn g).map fun x => nllLoss exp log x c := by
      intro g c
      have hlen : List.replicate bs c = List.replicate (List.ofFn g).length c := by
        rw [List.length_ofFn]
      rw [hlen, zipWith_replicate_right]
    rw [hz, hz, hz]
    simp only [List.sum_append, List.map_ofFn, List.sum_ofFn, Function.comp]
    rfl

theorem mean_neg_logsoftmax_eq_ce {m n : ℕ} (exp2 log2 : ℚ → ℚ)
    (X Tg : Fin m → Fin n → ℚ)
    (hlog : ∀ i j, log2 (softmaxRow exp2 (X i) j) =
      logSoftmaxRow exp2 log2 (X i) j) :
    -((∑ i, ∑ j, logSoftmaxRow exp2 log2 (X i) j * Tg i j) / (m : ℚ)) =
      (∑ i, specCrossEntropy log2 (softmaxRow exp2 (X i)) (Tg i)) / (m : ℚ) := by
  have hrow : ∀ i : Fin m,
      (∑ j, Tg i j * log2 (softmaxRow exp2 (X i) j)) =
        ∑ j, logSoftmaxRow exp2 log2 (X i) j * Tg i j := by
    intro i
    refine Finset.sum_congr rfl fun j _ => ?_
    rw [hlog i j, mul_comm]
  simp only [specCrossEntropy, hrow]
  rw [Finset.sum_neg_distrib, neg_div]

/-- Claim C9: the contrastive soft targets are the convex combination of
the teacher softmax distribution and the diagonal identity matching
matrix, with weight alpha equal to the configured alpha scaled by the
rampup factor; the ITA loss is the mean over the batch of the
cross-entropy between the student softmax similarities and these targets,
averaged over the image-to-text and text-to-image directions. The two
hypotheses record the law log(exp(x)/S) = x - log(S) of the real
logarithm at the rows where the code relies on it. -/
theorem forward_ita_soft_targets
    (hlog1 : ∀ i j, log (softmaxRow exp
        ((forward exp log a0 t0 ep it ne fI fT fIm fTm qI qT sp tE iE fc ih lm).simI2t i) j) =
      logSoftmaxRow exp log
        ((forward exp log a0 t0 ep it ne fI fT fIm fTm qI qT sp tE iE fc ih lm).simI2t i) j)
    (hlog2 : ∀ i j, log (softmaxRow exp
        ((forward exp log a0 t0 ep it ne fI fT fIm fTm qI qT sp tE iE fc ih lm).simT2i i) j) =
      logSoftmaxRow exp log
        ((forward exp log a0 t0 ep it ne fI fT fIm fTm qI qT sp tE iE fc ih lm).simT2i i) j) :
    (forward exp log a0 t0 ep it ne fI fT fIm fTm qI qT sp tE iE fc ih lm).alpha =
      a0 * rampupFactor ep it ne ∧
    (forward exp log a0 t0 ep it ne fI fT fIm fTm qI qT sp tE iE fc ih lm).simI2tTargets =
      specSoftTargets
        (forward exp log a0 t0 ep it ne fI fT fIm fTm qI qT sp tE iE fc ih lm).alpha
        (fun i => softmaxRow exp
          ((forward exp log a0 t0 ep it ne fI fT fIm fTm qI qT sp tE iE fc ih lm).simI2tM i)) ∧
    (forward exp log a0 t0 ep it ne fI fT fIm fTm qI qT sp tE iE fc ih lm).simT2iTargets =
      specSoftTargets
        (forward exp log a0 t0 ep it ne fI fT fIm fTm qI qT sp tE iE fc ih lm).alpha
        (fun i => softmaxRow exp
          ((forward exp log a0 t0 ep it ne fI fT fIm fTm qI qT sp tE iE fc ih lm).simT2iM i)) ∧
    (forward exp log a0 t0 ep it ne fI fT fIm fTm qI qT sp tE iE fc ih lm).lossIta =
      ((∑ i, specCrossEntropy log
          (softmaxRow exp
            ((forward exp log a0 t0 ep it ne fI fT fIm fTm qI qT sp tE iE fc ih lm).simI2t i))
          ((forward exp log a0 t0 ep it ne fI fT fIm fTm qI qT sp tE iE fc ih lm).simI2tTargets i)) /
        (bs : ℚ) +
       (∑ i, specCrossEntropy log
          (softmaxRow exp
            ((forward exp log a0 t0 ep it ne fI fT fIm fTm qI qT sp tE iE fc ih lm).simT2i i))
          ((forward exp log a0 t0 ep it ne fI fT fIm fTm qI qT sp tE iE fc ih lm).simT2iTargets i)) /
        (bs : ℚ)) / 2 := by
  refine ⟨rfl, rfl, rfl, ?_⟩
  have h1 : (forward exp log a0 t0 ep it ne fI fT fIm fTm qI qT sp tE iE fc ih lm).lossI2t =
      (∑ i, specCrossEntropy log
        (softmaxRow exp
          ((forward exp log a0 t0 ep it ne fI fT fIm fTm qI qT sp tE iE fc ih lm).simI2t i))
        ((forward exp log a0 t0 ep it ne fI fT fIm fTm qI qT sp tE iE fc ih lm).simI2tTargets i)) /
      (bs : ℚ) :=
    mean_neg_logsoftmax_eq_ce exp log
      (forward exp log a0 t0 ep it ne fI fT fIm fTm qI qT sp tE iE fc ih lm).simI2t
      (forward exp log a0 t0 ep it ne fI fT fIm fTm qI qT sp tE iE fc ih lm).simI2tTargets
      hlog1
  have h2 : (forward exp log a0 t0 ep it ne fI fT fIm fTm qI qT sp tE iE fc ih lm).lossT2i =
      (∑ i, specCrossEntropy log
        (softmaxRow exp
          ((forward exp log a0 t0 ep it ne fI fT fIm fTm qI qT sp tE iE fc ih lm).simT2i i))
        ((forward exp log a0 t0 ep it ne fI fT fIm fTm qI qT sp tE iE fc ih lm).simT2iTargets i)) /
      (bs : ℚ) :=
    mean_neg_logsoftmax_eq_ce exp log
      (forward exp log a0 t0 ep it ne fI fT fIm fTm qI qT sp tE iE fc ih lm).simT2i
      (forward exp log a0 t0 ep it ne fI fT fIm fTm qI qT sp tE iE fc ih lm).simT2iTargets
      hlog2
  rw [← h1, ← h2]
  rfl

end ForwardClaims

/-- Witness for C7 at batch size 2 with a concrete sampler satisfying the
multinomial guarantee. -/
theorem forward_hard_negative_mining_witness :
    (∀ b j, fwdW2.weightsT2i b j =
      if (j : ℕ) = (b : ℕ) then 0
      else softmaxRow exp0 (fun k => fwdW2.simT2i b (Fin.castAdd 0 k)) j) ∧
    (∀ b j, fwdW2.weightsI2t b j =
      if (j : ℕ) = (b : ℕ) then 0
      else softmaxRow exp0 (fun k => fwdW2.simI2t b (Fin.castAdd 0 k)) j) ∧
    (2 ≤ 2 → ∀ b, fwdW2.negIdxImg b ≠ b ∧ fwdW2.negIdxTxt b ≠ b) ∧
    (2 = 1 → ∀ b j, fwdW2.weightsT2i b j = 0 ∧ fwdW2.weightsI2t b j = 0) :=
  forward_hard_negative_mining exp0 log0 (2 / 5) (7 / 100) 0 0 1 zfeat2 zfeat2
    zfeat2 zfeat2 zqueue1 zqueue1 sampler0 uE2 uE2 fuse0 zhead 0
    (fun x => by norm_num [exp0])
    (by
      intro w hw
      by_cases h0 : 0 < w 0
      · simp [sampler0, h0]
      · obtain ⟨j, hj⟩ := hw
        fin_cases j
        · exact absurd hj h0
        · simpa [sampler0, h0] using hj)

/-- Witness for C9 at batch size 1 with concrete exp and log functions
satisfying the log-softmax law at the rows in question. -/
theorem forward_ita_soft_targets_witness :
    fwdW1.alpha = 2 / 5 * rampupFactor 0 0 1 ∧
    fwdW1.simI2tTargets = specSoftTargets fwdW1.alpha
      (fun i => softmaxRow exp0 (fwdW1.simI2tM i)) ∧
    fwdW1.simT2iTargets = specSoftTargets fwdW1.alpha
      (fun i => softmaxRow exp0 (fwdW1.simT2iM i)) ∧
    fwdW1.lossIta =
      ((∑ i, specCrossEntropy log0 (softmaxRow exp0 (fwdW1.simI2t i))
          (fwdW1.simI2tTargets i)) / ((1 : ℕ) : ℚ) +
       (∑ i, specCrossEntropy log0 (softmaxRow exp0 (fwdW1.simT2i i))
          (fwdW1.simT2iTargets i)) / ((1 : ℕ) : ℚ)) / 2 :=
  forward_ita_soft_targets exp0 log0 (2 / 5) (7 / 100) 0 0 1 zfeat1 zfeat1
    zfeat1 zfeat1 zqueue1 zqueue1 sampler1 uE1 uE1 fuse0 zhead 0
    (by
      intro i j
      simp [fwdW1, forward, log0, logSoftmaxRow, dotQ, zfeat1, clampTemp])
    (by
      intro i j
      simp [fwdW1, forward, log0, logSoftmaxRow, dotQ, zfeat1, clampTemp])

/-- Witness for C10 on a concrete store holding the ids tensor at reference
0 and its clone at reference 1. -/
theorem mask_mutates_in_place_witness :
    (maskProc tok0 draws0 store0 0 (some 1) none).2.1 = 0 ∧
    (maskProc tok0 draws0 store0 0 (some 1) none).2.2 = some 1 ∧
    (maskProc tok0 draws0 store0 0 (some 1) none).1 0 =
      (applyMask tok0 draws0 none (store0 0) (some (store0 1))).outIds ∧
    some ((maskProc tok0 draws0 store0 0 (some 1) none).1 1) =
      (applyMask tok0 draws0 none (store0 0) (some (store0 1))).outTargets ∧
    ∀ r, r ≠ 0 → r ≠ 1 →
      (maskProc tok0 draws0 store0 0 (some 1) none).1 r = store0 r :=
  mask_mutates_in_place tok0 draws0 store0 0 1 none (by decide)

end AlbefPretrain
